import Mathlib

/-! Shallow embedding of the mfridman/cli command-line parsing library.

The embedding translates the resolution/parsing core of the repository:
  * the command tree and flag model (src/command.go, src/state.go),
  * the resolver `Parse` (src/parse.go), and the later variant carrying
    required-flag validation (src/unnamed/part_002, second version),
  * the similarity matcher (src/pkg/suggest/suggest.go and its duplicate
    in src/command.go).

Go strings are modelled as Lean `String` (a list of characters); the Go
code indexes bytes, which coincides with characters on the ASCII data the
library manipulates.  Go float64 scores are modelled as exact rationals.
Process panics are modelled as a distinguished result constructor.
-/

/-- Byte-wise `strings.HasPrefix(s, pre)` from the Go standard library,
modelled on the character list underlying the string. -/
def hasPrefixStr (s pre : String) : Bool :=
  pre.data.isPrefixOf s.data

/-- Character-wise `strings.ToLower`, exact on ASCII input. -/
def lowerStr (s : String) : String :=
  ⟨s.data.map Char.toLower⟩

/-- Models `strings.EqualFold` (src/command.go line 101); on ASCII input
fold-equality coincides with comparing the lowercased strings. -/
def eqFold (a b : String) : Bool :=
  lowerStr a == lowerStr b

/-- Renders a string the way Go's `%q` verb does on the identifiers that
appear in this library's error messages (no escaping needed). -/
def quoteStr (s : String) : String :=
  "\"" ++ s ++ "\""

/-- Byte-wise lexicographic order on character lists: the order Go's `<`
uses on strings (exact on ASCII). `lexLe a b` is `a ≤ b`. -/
def lexLe : List Char → List Char → Bool
  | [], _ => true
  | _ :: _, [] => false
  | a :: as2, b :: bs2 =>
    if a.toNat < b.toNat then true
    else if b.toNat < a.toNat then false
    else lexLe as2 bs2

/-- Declared type of a flag value: the flag types the library's examples
and tests exercise (`flag.Bool`, `flag.String`, `flag.Int`). -/
inductive FlagTy where
  | bool
  | string
  | int
deriving DecidableEq

/-- Go type name of a flag type, as printed by the `%T` verb. -/
def FlagTy.goName : FlagTy → String
  | .bool => "bool"
  | .string => "string"
  | .int => "int"

/-- A flag value: the dynamic value stored in a `flag.Value` cell. -/
inductive FlagValue where
  | b (v : Bool)
  | s (v : String)
  | i (v : Int)
deriving DecidableEq

/-- Dynamic type of a stored flag value. -/
def FlagValue.ty : FlagValue → FlagTy
  | .b _ => .bool
  | .s _ => .string
  | .i _ => .int

/-- Models `flag.Value.String()`: the textual rendering of a value. -/
def FlagValue.render : FlagValue → String
  | .b true => "true"
  | .b false => "false"
  | .s v => v
  | .i v => toString v

/-- One flag definition of a `flag.FlagSet`: its name, its current value
cell, and its default (whose rendering is Go's `flag.Flag.DefValue`). -/
structure FlagDef where
  name : String
  value : FlagValue
  defVal : FlagValue
deriving DecidableEq

/-- Models `flag.FlagSet.Lookup` on the list of registered definitions. -/
def lookupFlag (fs : List FlagDef) (name : String) : Option FlagDef :=
  fs.find? (fun f => f.name == name)

/-- Writes a parsed value into the named flag's value cell. -/
def setFlag (fs : List FlagDef) (name : String) (v : FlagValue) : List FlagDef :=
  fs.map (fun f => if f.name == name then { f with value := v } else f)

/-- FlagMetadata from src/command.go lines 75-81. -/
structure FlagMetadata where
  name : String
  required : Bool
deriving DecidableEq

/-- formatFlagName from src/command.go lines 422-424. -/
def formatFlagName (name : String) : String :=
  "-" ++ name

/-- Command from src/command.go lines 24-62: name, flag set, flag
metadata, subcommands, and whether an `Exec` function is present. -/
inductive Command where
  | mk (name : String) (flags : List FlagDef) (flagsMetadata : List FlagMetadata)
      (subCommands : List Command) (hasExec : Bool)

def Command.name : Command → String
  | .mk n _ _ _ _ => n

def Command.flags : Command → List FlagDef
  | .mk _ f _ _ _ => f

def Command.flagsMetadata : Command → List FlagMetadata
  | .mk _ _ m _ _ => m

def Command.subCommands : Command → List Command
  | .mk _ _ _ s _ => s

def Command.hasExec : Command → Bool
  | .mk _ _ _ _ e => e

/-- getCommandPath from src/command.go lines 426-432. -/
def getCommandPath (commands : List Command) : String :=
  String.intercalate (" ") (commands.map Command.name)

/-- findSubCommand from src/command.go lines 97-106: case-insensitive
lookup among the node's subcommands. -/
def Command.findSubCommand (c : Command) (name : String) : Option Command :=
  c.subCommands.find? (fun sub => eqFold sub.name name)

/-! The similarity matcher, src/pkg/suggest/suggest.go (duplicated as
`calculateSimilarity` / `levenshteinDistance` in src/command.go). -/

/-- Row recurrence of the Levenshtein matrix from
src/pkg/suggest/suggest.go lines 92-103: given row `i` of the matrix as
`prev`, `levRowFun a b i prev j` is the entry `matrix[i+1][j]`.  Entry
`(i+1, j+1)` is `min(matrix[i][j+1]+1, min(matrix[i+1][j]+1,
matrix[i][j]+cost))` with cost 0 exactly when `a[i] == b[j]`. -/
def levRowFun (a b : List Char) (i : Nat) (prev : Nat → Nat) : Nat → Nat
  | 0 => i + 1
  | j + 1 =>
    min (prev (j + 1) + 1)
      (min (levRowFun a b i prev j + 1)
        (prev j + (if a.get? i = b.get? j then 0 else 1)))

/-- The full Levenshtein matrix of src/pkg/suggest/suggest.go lines
80-103: `levM a b i j = matrix[i][j]`, with first row `matrix[0][j] = j`
and first column `matrix[i][0] = i`. -/
def levM (a b : List Char) : Nat → Nat → Nat
  | 0 => fun j => j
  | i + 1 => levRowFun a b i (levM a b i)

/-- Bottom-right matrix entry: the distance between the full lists. -/
def levList (a b : List Char) : Nat :=
  levM a b a.length b.length

/-- levenshteinDistance from src/pkg/suggest/suggest.go lines 72-106,
including the early returns for empty inputs. -/
def levenshteinDistance (a b : String) : Nat :=
  if a.data.length = 0 then b.data.length
  else if b.data.length = 0 then a.data.length
  else levList a.data b.data

/-- calculateSimilarity from src/pkg/suggest/suggest.go lines 50-70.
The Go float64 expression `1.0 - float64(distance)/maxLen` is the exact
rational `1 - distance/maxLen`, written with `mkRat`; on the small
integers involved the float computation is exact enough that every
comparison made by the library coincides with the rational one. -/
def calculateSimilarity (a0 b0 : String) : ℚ :=
  let a := lowerStr a0
  let b := lowerStr b0
  if a = b then 1
  else if hasPrefixStr b a then mkRat 9 10
  else 1 - mkRat (levenshteinDistance a b) (max a.data.length b.data.length)

/-- threshold from src/pkg/suggest/suggest.go line 9 (`0.5`). -/
def threshold : ℚ := mkRat 1 2

/-- The anonymous `struct { name string; score float64 }` used by the
suggestion code. -/
structure Scored where
  name : String
  score : ℚ

/-- Insertion step of the sorting model: `x` is placed before the first
element `y` with `le x y`. -/
def insertBy {α : Type} (le : α → α → Bool) (x : α) : List α → List α
  | [] => [x]
  | y :: ys => if le x y then x :: y :: ys else y :: insertBy le x ys

/-- Sorting model for Go's `sort.Slice`: Go promises only the ordering
postcondition of the comparator (its algorithm is unstable and
unspecified on ties); insertion sort realises that postcondition
deterministically. -/
def sortBy {α : Type} (le : α → α → Bool) : List α → List α
  | [] => []
  | x :: xs => insertBy le x (sortBy le xs)

/-- Comparator of FindSimilar (src/pkg/suggest/suggest.go lines 34-39):
descending score, ties broken by ascending name. -/
def leScored (x y : Scored) : Bool :=
  decide (y.score < x.score) || (decide (x.score = y.score) && lexLe x.name.data y.name.data)

/-- Comparator of getSuggestions (src/command.go lines 310-312):
descending score only. -/
def leScore (x y : Scored) : Bool :=
  decide (y.score ≤ x.score)

/-- FindSimilar from src/pkg/suggest/suggest.go lines 12-48. -/
def FindSimilar (target : String) (candidates : List String) (maxResults : Int) : List String :=
  if target = "" ∨ maxResults ≤ 0 then []
  else
    let suggestions := (candidates.map (fun n => ({ name := n, score := calculateSimilarity target n } : Scored))).filter
      (fun s => decide (threshold < s.score))
    let sorted := sortBy leScored suggestions
    (sorted.take maxResults.toNat).map Scored.name

/-- getSuggestions from src/command.go lines 288-321: scores the node's
subcommand names against the unknown token, keeps scores above 0.5,
sorts by descending score, and keeps at most 3. -/
def Command.getSuggestions (c : Command) (unknownCmd : String) : List String :=
  let availableCommands := c.subCommands.map Command.name
  let suggestions := (availableCommands.map (fun n => ({ name := n, score := calculateSimilarity unknownCmd n } : Scored))).filter
    (fun s => decide (threshold < s.score))
  let sorted := sortBy leScore suggestions
  (sorted.take 3).map Scored.name

/-! The resolver, src/parse.go (main variant) and src/unnamed/part_002
(second variant, with required-flag validation). -/

mutual

/-- validateCommands from src/parse.go lines 168-190: every node must
have a nonempty, space-free name; the error names the dotted path. -/
def validateCommands : Command → List String → Option String
  | .mk n _ _ subs _, path =>
    if n = "" then
      if path.length = 0 then some ("root command has no name")
      else some ("subcommand in path " ++ quoteStr (String.intercalate (" ") path) ++ " has no name")
    else if n.data.contains ' ' then
      some ("command name " ++ quoteStr n ++ " contains spaces")
    else
      validateSubs subs (path ++ [n])

def validateSubs : List Command → List String → Option String
  | [], _ => none
  | c :: cs, path =>
    match validateCommands c path with
    | some e => some e
    | none => validateSubs cs path

end

/-- Delimiter split of src/parse.go lines 42-58: the first occurrence of
the literal token `--` splits the argument vector; tokens before it are
the main tokens, tokens after it are passed through verbatim. -/
def splitAtDelimiter : List String → List String × List String
  | [] => ([], [])
  | a :: rest =>
    if a == "--" then ([], rest)
    else
      let p := splitAtDelimiter rest
      (a :: p.1, p.2)

/-- The help spellings recognized by src/parse.go line 69. -/
def helpTokens : List String := ["-h", "--h", "-help", "--help"]

/-- Outcome of the command-path discovery loop. -/
inductive TravResult where
  | done (terminal : Command) (chain : List Command)
  | help (cmd : Command)
  | unknown (cmd : Command) (tok : String)

/-- Command-path discovery loop of src/parse.go lines 66-99: at each
token, a help spelling short-circuits, an option-shaped token is
skipped, a token matching a subcommand advances the chain, and any
other token either fails (node has children) or stops the scan. -/
def traverseLoop (current : Command) (chain : List Command) : List String → TravResult
  | [] => .done current chain
  | arg :: rest =>
    if helpTokens.contains arg then .help current
    else if hasPrefixStr arg ("-") then traverseLoop current chain rest
    else
      match current.findSubCommand arg with
      | some sub => traverseLoop sub (chain ++ [sub]) rest
      | none =>
        if current.subCommands.length > 0 then .unknown current arg
        else .done current chain

/-- Command-path discovery loop of src/unnamed/part_002 lines 313-334
(second variant): identical to `traverseLoop` except that help spellings are
not checked inside the loop (they are scanned afterwards). -/
def traverseLoopV2 (current : Command) (chain : List Command) : List String → TravResult
  | [] => .done current chain
  | arg :: rest =>
    if hasPrefixStr arg ("-") then traverseLoopV2 current chain rest
    else
      if current.subCommands.length > 0 then
        match current.findSubCommand arg with
        | some sub => traverseLoopV2 sub (chain ++ [sub]) rest
        | none => .unknown current arg
      else .done current chain

/-- Merged flag-set construction of src/parse.go lines 104-123: the
chain is visited in reverse order (terminal first) and a definition is
registered only when its name is not present yet, so the definition
closest to the terminal wins. -/
def addFlags : List FlagDef → List FlagDef → List FlagDef
  | acc, [] => acc
  | acc, f :: fs =>
    if (lookupFlag acc f.name).isSome then addFlags acc fs
    else addFlags (acc ++ [f]) fs

def buildCombined (chain : List Command) : List FlagDef :=
  chain.reverse.foldl (fun acc cmd => addFlags acc cmd.flags) []

/-- Errors produced by the flag-parsing pass. -/
inductive ParseErr where
  | unknownFlag (tok : String)
  | badValue (name val : String)
  | needsArg (name : String)
  | badSyntax (tok : String)
deriving DecidableEq

/-- Models `strconv.ParseBool`, the boolean lexical primitive used by the
standard flag package. -/
def parseBoolLit (s : String) : Option Bool :=
  if ["1", "t", "T", "true", "TRUE", "True"].contains s then some true
  else if ["0", "f", "F", "false", "FALSE", "False"].contains s then some false
  else none

/-- Splits a flag body at its first `=`, yielding the name and the
attached value when present. -/
def splitEqAux : List Char → List Char × Option (List Char)
  | [] => ([], none)
  | c :: cs =>
    if c == '=' then ([], some cs)
    else
      let p := splitEqAux cs
      (c :: p.1, p.2)

def splitAtEq (s : String) : String × Option String :=
  let p := splitEqAux s.data
  (⟨p.1⟩, p.2.map (fun v => (⟨v⟩ : String)))

/-- Drops the leading one or two dashes of an option token. -/
def stripDashes (s : String) : String :=
  if hasPrefixStr s ("--") then ⟨s.data.drop 2⟩
  else if hasPrefixStr s ("-") then ⟨s.data.drop 1⟩
  else s

/-- A token is option-shaped when it starts with `-` and is longer than
the bare dash (`-` alone is positional data for the flag package). -/
def isFlagToken (arg : String) : Bool :=
  hasPrefixStr arg ("-") && arg.data.length > 1

/-- Modelled from the spec: the repository delegates flag parsing to the
external module `github.com/mfridman/xflag` (`ParseToEnd`) on top of the
standard `flag` package, neither of which is part of this repository.
Following spec sections 4.2 (phase 3) and 6, the pass scans every token
to the end of the stream: option-shaped tokens in the forms `-name`,
`--name`, `-name=value`, `--name=value` and `-name value` are consumed
and written into the merged set (a boolean flag without `=` consumes no
value token; other flags without `=` consume the following token), a
token naming no merged flag is an unknown-option error, a value failing
lexical parsing is a value-parse error, and every other token is left,
in order, as a positional. -/
def parseToEnd (fs : List FlagDef) : List String → Except ParseErr (List FlagDef × List String)
  | [] => .ok (fs, [])
  | arg :: rest =>
    if isFlagToken arg then
      let body := stripDashes arg
      if body = "" ∨ hasPrefixStr body ("-") ∨ hasPrefixStr body ("=") then
        .error (.badSyntax arg)
      else
        let p := splitAtEq body
        match lookupFlag fs p.1 with
        | none => .error (.unknownFlag arg)
        | some f =>
          match f.value.ty, p.2 with
          | .bool, some v =>
            match parseBoolLit v with
            | some bv => parseToEnd (setFlag fs p.1 (.b bv)) rest
            | none => .error (.badValue p.1 v)
          | .bool, none => parseToEnd (setFlag fs p.1 (.b true)) rest
          | .string, some v => parseToEnd (setFlag fs p.1 (.s v)) rest
          | .string, none =>
            match rest with
            | [] => .error (.needsArg p.1)
            | v :: rest2 => parseToEnd (setFlag fs p.1 (.s v)) rest2
          | .int, some v =>
            match v.toInt? with
            | some iv => parseToEnd (setFlag fs p.1 (.i iv)) rest
            | none => .error (.badValue p.1 v)
          | .int, none =>
            match rest with
            | [] => .error (.needsArg p.1)
            | v :: rest2 =>
              match v.toInt? with
              | some iv => parseToEnd (setFlag fs p.1 (.i iv)) rest2
              | none => .error (.badValue p.1 v)
    else
      match parseToEnd fs rest with
      | .ok pr => .ok (pr.1, arg :: pr.2)
      | .error e => .error e

/-- Leading command-name strip of src/parse.go lines 138-160: leading
positional tokens byte-equal to the name of some command of the chain
are removed (they are artifacts of the chain having been walked). -/
def stripChainNames (chain : List Command) (remaining : List String) : List String :=
  remaining.dropWhile (fun arg => chain.any (fun cmd => cmd.name == arg))

/-- Result of a resolution, covering both `Parse` variants.  The Go code
reports errors through `error` values and results through mutated state
(`root.selected`, `state.Args`, the flag value cells); the constructors
carry the same observables. -/
inductive ParseResult where
  | ok (chain : List Command) (flags : List FlagDef) (args : List String)
  | helpRequested (cmd : Command)
  | unknownCommand (cmd : Command) (tok : String) (suggestions : List String)
  | flagError (cmdName : String) (e : ParseErr)
  | validationError (msg : String)
  | missingFlags (pathName : String) (names : List String) (msg : String)
  | internalError (msg : String)
  | noExecError (pathName : String) (flags : List FlagDef) (args : List String)

def ParseResult.leftoverArgs : ParseResult → Option (List String)
  | .ok _ _ a => some a
  | _ => none

def ParseResult.terminalName : ParseResult → Option String
  | .ok c _ _ => c.getLast?.map Command.name
  | _ => none

def ParseResult.flagValueOf (r : ParseResult) (name : String) : Option FlagValue :=
  match r with
  | .ok _ fs _ => (lookupFlag fs name).map FlagDef.value
  | _ => none

def ParseResult.isHelp : ParseResult → Bool
  | .helpRequested _ => true
  | _ => false

def ParseResult.unknownInfo : ParseResult → Option (String × List String)
  | .unknownCommand _ tok sugg => some (tok, sugg)
  | _ => none

def ParseResult.missingInfo : ParseResult → Option (List String × String)
  | .missingFlags _ names msg => some (names, msg)
  | _ => none

/-- Resolution core of src/parse.go lines 39-165, after the delimiter
split: command-path discovery over the main tokens, merged flag-set
construction, the parse-to-end pass over the main tokens, the leading
command-name strip, and the verbatim append of the tail tokens. -/
def parseCore (root : Command) (main tail : List String) : ParseResult :=
  match traverseLoop root [root] main with
  | .help c => .helpRequested c
  | .unknown c tok => .unknownCommand c tok (c.getSuggestions tok)
  | .done current chain =>
    let combined := buildCombined chain
    match parseToEnd combined main with
    | .error e => .flagError current.name e
    | .ok pr => .ok chain pr.1 (stripChainNames chain pr.2 ++ tail)

/-- Parse from src/parse.go lines 19-166 (the nil-root guard has no
counterpart for a total Lean value). -/
def Parse (root : Command) (args : List String) : ParseResult :=
  match validateCommands root [] with
  | some e => .validationError e
  | none =>
    let p := splitAtDelimiter args
    parseCore root p.1 p.2

/-- Required-flag scan of src/unnamed/part_002 lines 362-379: walks the
flattened metadata of the chain; a required name absent from the merged
set aborts with an internal error; a required flag whose rendered value
still equals its rendered default is collected as missing. -/
def collectRequired (pathName : String) (combined : List FlagDef) : List FlagMetadata → Except String (List String)
  | [] => .ok []
  | m :: rest =>
    if m.required = false then collectRequired pathName combined rest
    else
      match lookupFlag combined m.name with
      | none =>
        .error ("command " ++ quoteStr pathName ++ ": internal error: required flag "
          ++ formatFlagName m.name ++ " not found in flag set")
      | some f =>
        match collectRequired pathName combined rest with
        | .error e => .error e
        | .ok ms =>
          .ok (if f.value.render == f.defVal.render then formatFlagName m.name :: ms else ms)

/-- Aggregated missing-flags message of src/unnamed/part_002 lines
380-386. -/
def renderMissingMsg (pathName : String) (names : List String) : String :=
  "command " ++ quoteStr pathName ++ ": required flag" ++ (if 1 < names.length then "s" else "")
    ++ " " ++ quoteStr (String.intercalate (", ") names) ++ " not set"

/-- Parse from src/unnamed/part_002 lines 274-421 (the second variant of
the file): the delimiter split, the help-free discovery loop, a help
scan over all main tokens, the merged flag-set construction and parse
pass, the required-flag validation, the leftover reconstruction, and the
no-exec check. -/
def ParseV2 (root : Command) (args : List String) : ParseResult :=
  match validateCommands root [] with
  | some e => .validationError e
  | none =>
    let p := splitAtDelimiter args
    match traverseLoopV2 root [root] p.1 with
    | .help c => .helpRequested c
    | .unknown c tok => .unknownCommand c tok (c.getSuggestions tok)
    | .done current chain =>
      if p.1.any (fun arg => helpTokens.contains arg) then .helpRequested current
      else
        let combined := buildCombined chain
        match parseToEnd combined p.1 with
        | .error e => .flagError current.name e
        | .ok pr =>
          match collectRequired (getCommandPath chain) pr.1 (chain.flatMap Command.flagsMetadata) with
          | .error e => .internalError e
          | .ok missing =>
            if missing.length > 0 then
              .missingFlags (getCommandPath chain) missing (renderMissingMsg (getCommandPath chain) missing)
            else
              let finalArgs := stripChainNames chain pr.2 ++ p.2
              if current.hasExec then .ok chain pr.1 finalArgs
              else .noExecError (getCommandPath chain) pr.1 finalArgs

/-! The merged-context accessor, src/state.go. -/

/-- Outcome of `GetFlag`: either the typed value, or the message of the
process-aborting panic. -/
inductive GetFlagResult where
  | value (v : FlagValue)
  | panicked (msg : String)
deriving DecidableEq

/-- Panic message of src/state.go lines 49-56. -/
def typeMismatchMsg (name : String) (commandPath : List Command) (registered requested : FlagTy) : String :=
  "internal error: type mismatch for flag " ++ quoteStr (formatFlagName name) ++ " in command "
    ++ quoteStr (getCommandPath commandPath) ++ ": registered " ++ registered.goName
    ++ ", requested " ++ requested.goName

/-- Panic message of src/state.go lines 62-66. -/
def flagNotFoundMsg (name : String) (commandPath : List Command) : String :=
  "internal error: flag " ++ quoteStr (formatFlagName name) ++ " not found in "
    ++ quoteStr (getCommandPath commandPath) ++ " flag set"

/-- Walk of src/state.go lines 37-59 over the reversed command path. -/
def getFlagAux (name : String) (requested : FlagTy) (full : List Command) : List Command → GetFlagResult
  | [] => .panicked (flagNotFoundMsg name full)
  | cmd :: rest =>
    match lookupFlag cmd.flags name with
    | some f =>
      if f.value.ty = requested then .value f.value
      else .panicked (typeMismatchMsg name full f.value.ty requested)
    | none => getFlagAux name requested full rest

/-- GetFlag from src/state.go lines 35-67: walks the resolved command
path from the terminal to the root; the first node whose flag set
declares the name decides the outcome; a dynamic type differing from
the requested one, or a name declared nowhere on the path, panics. -/
def GetFlag (commandPath : List Command) (name : String) (requested : FlagTy) : GetFlagResult :=
  getFlagAux name requested commandPath commandPath.reverse

/-! Helper lemmas about the sorting model. -/

theorem mem_insertBy {α : Type} (le : α → α → Bool) (x : α) (l : List α) (y : α) :
    y ∈ insertBy le x l ↔ y = x ∨ y ∈ l := by
  induction l with
  | nil => simp [insertBy]
  | cons a t ih =>
    by_cases h : le x a = true
    · simp [insertBy, h]
    · simp only [insertBy, h]
      simp [ih]
      tauto

theorem length_insertBy {α : Type} (le : α → α → Bool) (x : α) (l : List α) :
    (insertBy le x l).length = l.length + 1 := by
  induction l with
  | nil => simp [insertBy]
  | cons a t ih =>
    by_cases h : le x a = true <;> simp [insertBy, h, ih]

theorem mem_sortBy {α : Type} (le : α → α → Bool) (l : List α) (y : α) :
    y ∈ sortBy le l ↔ y ∈ l := by
  induction l with
  | nil => simp [sortBy]
  | cons a t ih => simp [sortBy, mem_insertBy, ih]

theorem length_sortBy {α : Type} (le : α → α → Bool) (l : List α) :
    (sortBy le l).length = l.length := by
  induction l with
  | nil => rfl
  | cons a t ih => simp [sortBy, length_insertBy, ih]

theorem pairwise_insertBy {α : Type} {le : α → α → Bool}
    (total : ∀ a b, le a b = true ∨ le b a = true)
    (trans : ∀ a b c, le a b = true → le b c = true → le a c = true)
    (x : α) {l : List α} (h : l.Pairwise (fun a b => le a b = true)) :
    (insertBy le x l).Pairwise (fun a b => le a b = true) := by
  induction l with
  | nil => simp [insertBy]
  | cons a t ih =>
    rcases List.pairwise_cons.mp h with ⟨ha, ht⟩
    by_cases hle : le x a = true
    · simp only [insertBy, hle, if_true]
      refine List.pairwise_cons.mpr ⟨?_, h⟩
      intro z hz
      rcases List.mem_cons.mp hz with rfl | hz
      · exact hle
      · exact trans x a z hle (ha z hz)
    · simp only [insertBy, hle, if_false]
      refine List.pairwise_cons.mpr ⟨?_, ih ht⟩
      intro z hz
      rcases (mem_insertBy le x t z).mp hz with hzx | hz
      · rw [hzx]
        rcases total x a with h1 | h1
        · exact absurd h1 hle
        · exact h1
      · exact ha z hz

theorem pairwise_sortBy {α : Type} {le : α → α → Bool}
    (total : ∀ a b, le a b = true ∨ le b a = true)
    (trans : ∀ a b c, le a b = true → le b c = true → le a c = true)
    (l : List α) : (sortBy le l).Pairwise (fun a b => le a b = true) := by
  induction l with
  | nil => simp [sortBy]
  | cons a t ih => exact pairwise_insertBy total trans a ih

/-! Helper lemmas about the byte-lexicographic order. -/

theorem lexLe_total (a b : List Char) : lexLe a b = true ∨ lexLe b a = true := by
  induction a generalizing b with
  | nil => left; rfl
  | cons x xs ih =>
    cases b with
    | nil => right; rfl
    | cons y ys =>
      by_cases h1 : x.toNat < y.toNat
      · left; simp [lexLe, h1]
      · by_cases h2 : y.toNat < x.toNat
        · right; simp [lexLe, h1, h2]
        · rcases ih ys with h | h
          · left; simp [lexLe, h1, h2, h]
          · right; simp [lexLe, h1, h2, h]

theorem lexLe_trans (a b c : List Char) (h1 : lexLe a b = true) (h2 : lexLe b c = true) :
    lexLe a c = true := by
  induction a generalizing b c with
  | nil => rfl
  | cons x xs ih =>
    cases b with
    | nil => simp [lexLe] at h1
    | cons y ys =>
      cases c with
      | nil => simp [lexLe] at h2
      | cons z zs =>
        simp only [lexLe] at h1 h2 ⊢
        by_cases hxy : x.toNat < y.toNat
        · by_cases hyz : y.toNat < z.toNat
          · have hxz : x.toNat < z.toNat := Nat.lt_trans hxy hyz
            simp [hxz]
          · by_cases hzy : z.toNat < y.toNat
            · simp [hyz, hzy] at h2
            · have heq : y.toNat = z.toNat := Nat.le_antisymm (Nat.le_of_not_lt hzy) (Nat.le_of_not_lt hyz)
              have hxz : x.toNat < z.toNat := heq ▸ hxy
              simp [hxz]
        · by_cases hyx : y.toNat < x.toNat
          · simp [hxy, hyx] at h1
          · have hxyeq : x.toNat = y.toNat := Nat.le_antisymm (Nat.le_of_not_lt hyx) (Nat.le_of_not_lt hxy)
            have h1t : lexLe xs ys = true := by simpa [hxy, hyx] using h1
            by_cases hyz : y.toNat < z.toNat
            · have hxz : x.toNat < z.toNat := hxyeq ▸ hyz
              simp [hxz]
            · by_cases hzy : z.toNat < y.toNat
              · simp [hyz, hzy] at h2
              · have hyzeq : y.toNat = z.toNat := Nat.le_antisymm (Nat.le_of_not_lt hzy) (Nat.le_of_not_lt hyz)
                have h2t : lexLe ys zs = true := by simpa [hyz, hzy] using h2
                have hxz : ¬ x.toNat < z.toNat := by omega
                have hzx : ¬ z.toNat < x.toNat := by omega
                simp [hxz, hzx]
                exact ih ys zs h1t h2t

theorem leScored_total (x y : Scored) : leScored x y = true ∨ leScored y x = true := by
  unfold leScored
  rcases lt_trichotomy x.score y.score with h | h | h
  · right; simp [h]
  · rcases lexLe_total x.name.data y.name.data with hl | hl
    · left; simp [h, hl]
    · right; simp [h.symm, hl]
  · left; simp [h]

theorem leScored_trans (x y z : Scored) (h1 : leScored x y = true) (h2 : leScored y z = true) :
    leScored x z = true := by
  unfold leScored at h1 h2 ⊢
  simp only [Bool.or_eq_true, Bool.and_eq_true, decide_eq_true_eq] at h1 h2 ⊢
  rcases h1 with h1 | ⟨h1e, h1n⟩
  · rcases h2 with h2 | ⟨h2e, h2n⟩
    · exact Or.inl (lt_trans h2 h1)
    · exact Or.inl (h2e ▸ h1)
  · rcases h2 with h2 | ⟨h2e, h2n⟩
    · exact Or.inl (h1e ▸ h2)
    · exact Or.inr ⟨h1e.trans h2e, lexLe_trans _ _ _ h1n h2n⟩

theorem leScore_total (x y : Scored) : leScore x y = true ∨ leScore y x = true := by
  unfold leScore
  rcases le_total y.score x.score with h | h
  · left; simp [h]
  · right; simp [h]

theorem leScore_trans (x y z : Scored) (h1 : leScore x y = true) (h2 : leScore y z = true) :
    leScore x z = true := by
  unfold leScore at h1 h2 ⊢
  simp only [decide_eq_true_eq] at h1 h2 ⊢
  exact le_trans h2 h1

/-! Helper lemmas about flag lookup and the merged flag set. -/

theorem lookupFlag_append (l1 l2 : List FlagDef) (n : String) :
    lookupFlag (l1 ++ l2) n =
      (match lookupFlag l1 n with
       | some d => some d
       | none => lookupFlag l2 n) := by
  induction l1 with
  | nil => simp [lookupFlag]
  | cons f fs ih =>
    by_cases h : f.name == n
    · simp [lookupFlag, List.find?, h]
    · simp only [lookupFlag, List.cons_append, List.find?, h] at ih ⊢
      exact ih

theorem lookupFlag_isSome (fs : List FlagDef) (n : String) :
    (lookupFlag fs n).isSome ↔ ∃ f ∈ fs, f.name = n := by
  rw [lookupFlag, List.find?_isSome]
  constructor
  · rintro ⟨f, hf, he⟩
    exact ⟨f, hf, by simpa using he⟩
  · rintro ⟨f, hf, he⟩
    exact ⟨f, hf, by simpa using he⟩

theorem lookupFlag_addFlags (fs : List FlagDef) (acc : List FlagDef) (n : String) :
    lookupFlag (addFlags acc fs) n =
      (match lookupFlag acc n with
       | some d => some d
       | none => lookupFlag fs n) := by
  induction fs generalizing acc with
  | nil =>
    simp only [addFlags]
    cases h : lookupFlag acc n <;> simp [lookupFlag]
  | cons f fs ih =>
    simp only [addFlags]
    by_cases hdup : (lookupFlag acc f.name).isSome = true
    · rw [if_pos hdup, ih]
      by_cases hn : f.name == n
      · have heq : f.name = n := by simpa using hn
        rw [heq] at hdup
        rcases Option.isSome_iff_exists.mp hdup with ⟨d, hd⟩
        rw [hd]
      · cases h : lookupFlag acc n
        · simp [lookupFlag, List.find?, hn]
        · rfl
    · rw [if_neg hdup, ih, lookupFlag_append]
      have hnone : lookupFlag acc f.name = none := by
        cases h : lookupFlag acc f.name
        · rfl
        · rw [h] at hdup; simp at hdup
      by_cases hn : f.name == n
      · have heq : f.name = n := by simpa using hn
        rw [← heq, hnone]
        simp [lookupFlag, List.find?]
      · cases h : lookupFlag acc n <;> simp [lookupFlag, List.find?, hn, h]

theorem lookupFlag_foldl (cmds : List Command) (acc : List FlagDef) (n : String) :
    lookupFlag (cmds.foldl (fun acc cmd => addFlags acc cmd.flags) acc) n =
      (match lookupFlag acc n with
       | some d => some d
       | none => lookupFlag (cmds.flatMap Command.flags) n) := by
  induction cmds generalizing acc with
  | nil =>
    simp only [List.foldl_nil, List.flatMap_nil]
    cases h : lookupFlag acc n <;> simp [lookupFlag]
  | cons c cs ih =>
    simp only [List.foldl_cons, List.flatMap_cons]
    rw [ih, lookupFlag_addFlags, lookupFlag_append]
    cases h1 : lookupFlag acc n <;> cases h2 : lookupFlag c.flags n <;> simp

theorem lookupFlag_buildCombined (chain : List Command) (n : String) :
    lookupFlag (buildCombined chain) n = lookupFlag (chain.reverse.flatMap Command.flags) n := by
  rw [buildCombined, lookupFlag_foldl]
  rfl

/-! Helper lemmas about the Levenshtein matrix. -/

theorem levM_zero_right (a b : List Char) (i : Nat) : levM a b i 0 = i := by
  cases i <;> rfl

theorem levRowFun_congr (a b a2 b2 : List Char) (i : Nat) (prev prev2 : Nat → Nat) :
    ∀ (j : Nat), (∀ k, k ≤ j → prev k = prev2 k) → a.get? i = a2.get? i →
    (∀ k, k < j → b.get? k = b2.get? k) →
    levRowFun a b i prev j = levRowFun a2 b2 i prev2 j := by
  intro j
  induction j with
  | zero => intro _ _ _; rfl
  | succ j ih =>
    intro hprev hai hb
    simp only [levRowFun]
    rw [hprev (j + 1) (Nat.le_refl _), hprev j (Nat.le_succ _), hai, hb j (Nat.lt_succ_self j),
      ih (fun k hk => hprev k (Nat.le_succ_of_le hk)) hai (fun k hk => hb k (Nat.lt_succ_of_lt hk))]

theorem levM_congr (a b a2 b2 : List Char) :
    ∀ (i : Nat), (∀ k, k < i → a.get? k = a2.get? k) →
    ∀ (j : Nat), (∀ k, k < j → b.get? k = b2.get? k) →
    levM a b i j = levM a2 b2 i j := by
  intro i
  induction i with
  | zero => intro _ j _; rfl
  | succ i ih =>
    intro ha j hb
    simp only [levM]
    apply levRowFun_congr
    · intro k hk
      exact ih (fun k2 hk2 => ha k2 (Nat.lt_succ_of_lt hk2)) k
        (fun k2 hk2 => hb k2 (Nat.lt_of_lt_of_le hk2 hk))
    · exact ha i (Nat.lt_succ_self i)
    · intro k hk
      exact hb k hk

theorem levList_nil_left (ys : List Char) : levList [] ys = ys.length := rfl

theorem levList_nil_right (xs : List Char) : levList xs [] = xs.length := by
  unfold levList
  simp only [List.length_nil]
  exact levM_zero_right xs [] xs.length

/-- The Levenshtein matrix of the source satisfies the defining
recurrence of classic unit-cost edit distance on final characters:
deletion, insertion and substitution each cost 1.  Together with the two
base cases this recurrence determines the function uniquely. -/
theorem levList_snoc (xs ys : List Char) (x y : Char) :
    levList (xs ++ [x]) (ys ++ [y]) =
      min (levList xs (ys ++ [y]) + 1)
        (min (levList (xs ++ [x]) ys + 1)
          (levList xs ys + (if x = y then 0 else 1))) := by
  have hagree_a : ∀ k, k < xs.length → (xs ++ [x]).get? k = xs.get? k := by
    intro k hk
    exact List.get?_append hk
  have hagree_b : ∀ k, k < ys.length → (ys ++ [y]).get? k = ys.get? k := by
    intro k hk
    exact List.get?_append hk
  have e1 : levM (xs ++ [x]) (ys ++ [y]) (xs.length + 1) (ys.length + 1)
      = min (levM (xs ++ [x]) (ys ++ [y]) xs.length (ys.length + 1) + 1)
          (min (levM (xs ++ [x]) (ys ++ [y]) (xs.length + 1) ys.length + 1)
            (levM (xs ++ [x]) (ys ++ [y]) xs.length ys.length
              + (if (xs ++ [x]).get? xs.length = (ys ++ [y]).get? ys.length then 0 else 1))) := rfl
  have c1 : levM (xs ++ [x]) (ys ++ [y]) xs.length (ys.length + 1)
      = levM xs (ys ++ [y]) xs.length (ys.length + 1) :=
    levM_congr _ _ _ _ xs.length hagree_a (ys.length + 1) (fun _ _ => rfl)
  have c2 : levM (xs ++ [x]) (ys ++ [y]) (xs.length + 1) ys.length
      = levM (xs ++ [x]) ys (xs.length + 1) ys.length :=
    levM_congr _ _ _ _ (xs.length + 1) (fun _ _ => rfl) ys.length hagree_b
  have c3 : levM (xs ++ [x]) (ys ++ [y]) xs.length ys.length
      = levM xs ys xs.length ys.length :=
    levM_congr _ _ _ _ xs.length hagree_a ys.length hagree_b
  have c4 : (xs ++ [x]).get? xs.length = some x := List.get?_concat_length xs x
  have c5 : (ys ++ [y]).get? ys.length = some y := List.get?_concat_length ys y
  unfold levList
  simp only [List.length_append, List.length_cons, List.length_nil, Nat.zero_add]
  rw [e1, c1, c2, c3, c4, c5]
  simp only [Option.some.injEq]

theorem levenshteinDistance_eq_levList (a b : String) :
    levenshteinDistance a b = levList a.data b.data := by
  unfold levenshteinDistance
  by_cases ha : a.data.length = 0
  · rw [if_pos ha]
    rw [List.length_eq_zero.mp ha, levList_nil_left]
  · rw [if_neg ha]
    by_cases hb : b.data.length = 0
    · rw [if_pos hb]
      rw [List.length_eq_zero.mp hb, levList_nil_right]
    · rw [if_neg hb]

/-! Helper lemmas about the flag-parsing pass. -/

theorem setFlag_names (fs : List FlagDef) (n : String) (v : FlagValue) :
    (setFlag fs n v).map FlagDef.name = fs.map FlagDef.name := by
  induction fs with
  | nil => rfl
  | cons f t ih =>
    simp only [setFlag, List.map_cons] at ih ⊢
    have hhead : ((if f.name == n then { f with value := v } else f) : FlagDef).name = f.name := by
      by_cases h : f.name == n <;> simp [h]
    rw [hhead, ih]

theorem parseToEnd_props : ∀ (n : Nat) (args : List String), args.length ≤ n →
    ∀ (fs fs2 : List FlagDef) (pos : List String), parseToEnd fs args = .ok (fs2, pos) →
    pos.Sublist args ∧ fs2.map FlagDef.name = fs.map FlagDef.name := by
  intro n
  induction n with
  | zero =>
    intro args hlen fs fs2 pos h
    have : args = [] := List.length_eq_zero.mp (Nat.le_zero.mp hlen)
    subst this
    simp only [parseToEnd, Except.ok.injEq, Prod.mk.injEq] at h
    rw [← h.1, ← h.2]
    exact ⟨List.nil_sublist _, rfl⟩
  | succ n ih =>
    intro args hlen fs fs2 pos h
    cases args with
    | nil =>
      simp only [parseToEnd, Except.ok.injEq, Prod.mk.injEq] at h
      rw [← h.1, ← h.2]
      exact ⟨List.nil_sublist _, rfl⟩
    | cons a rest =>
      have hrest : rest.length ≤ n := by
        simp only [List.length_cons] at hlen
        omega
      simp only [parseToEnd] at h
      split at h
      · -- flag-shaped token
        split at h
        · exact absurd h (by simp)
        · split at h
          · exact absurd h (by simp)
          · -- found flag: case on type and attached value
            split at h
            · -- bool with value
              split at h
              · rcases ih rest hrest _ _ _ h with ⟨hs, hn⟩
                exact ⟨hs.cons a, hn.trans (setFlag_names _ _ _)⟩
              · exact absurd h (by simp)
            · -- bool without value
              rcases ih rest hrest _ _ _ h with ⟨hs, hn⟩
              exact ⟨hs.cons a, hn.trans (setFlag_names _ _ _)⟩
            · -- string with value
              rcases ih rest hrest _ _ _ h with ⟨hs, hn⟩
              exact ⟨hs.cons a, hn.trans (setFlag_names _ _ _)⟩
            · -- string without value: consumes the next token
              split at h
              · exact absurd h (by simp)
              · rename_i v rest2
                have hrest2 : rest2.length ≤ n := by
                  simp only [List.length_cons] at hlen
                  omega
                rcases ih rest2 hrest2 _ _ _ h with ⟨hs, hn⟩
                exact ⟨(hs.cons v).cons a, hn.trans (setFlag_names _ _ _)⟩
            · -- int with value
              split at h
              · rcases ih rest hrest _ _ _ h with ⟨hs, hn⟩
                exact ⟨hs.cons a, hn.trans (setFlag_names _ _ _)⟩
              · exact absurd h (by simp)
            · -- int without value
              split at h
              · exact absurd h (by simp)
              · rename_i v rest2
                split at h
                · have hrest2 : rest2.length ≤ n := by
                    simp only [List.length_cons] at hlen
                    omega
                  rcases ih rest2 hrest2 _ _ _ h with ⟨hs, hn⟩
                  exact ⟨(hs.cons v).cons a, hn.trans (setFlag_names _ _ _)⟩
                · exact absurd h (by simp)
      · -- positional token
        split at h
        · rename_i pr heq
          have h2 := Except.ok.inj h
          have hfs : pr.1 = fs2 := congrArg Prod.fst h2
          have hpos : a :: pr.2 = pos := congrArg Prod.snd h2
          rcases ih rest hrest _ _ _ heq with ⟨hs, hn⟩
          rw [← hpos, ← hfs]
          exact ⟨hs.cons₂ a, hn⟩
        · exact absurd h (by simp)

theorem parseToEnd_sublist (fs fs2 : List FlagDef) (args pos : List String)
    (h : parseToEnd fs args = .ok (fs2, pos)) : pos.Sublist args :=
  (parseToEnd_props args.length args (Nat.le_refl _) fs fs2 pos h).1

theorem parseToEnd_names (fs fs2 : List FlagDef) (args pos : List String)
    (h : parseToEnd fs args = .ok (fs2, pos)) :
    fs2.map FlagDef.name = fs.map FlagDef.name :=
  (parseToEnd_props args.length args (Nat.le_refl _) fs fs2 pos h).2

/-! Helper lemmas about the delimiter split and the tail append. -/

/-- Appends the tail tokens to the leftover arguments of a successful
resolution; errors are unchanged. -/
def appendTailArgs (r : ParseResult) (tail : List String) : ParseResult :=
  match r with
  | .ok chain fs args => .ok chain fs (args ++ tail)
  | r => r

theorem splitAtDelimiter_fst_clean (args : List String) :
    splitAtDelimiter (splitAtDelimiter args).1 = ((splitAtDelimiter args).1, []) := by
  induction args with
  | nil => rfl
  | cons a rest ih =>
    by_cases h : a == "--"
    · simp [splitAtDelimiter, h]
    · simp only [splitAtDelimiter, h, Bool.false_eq_true, if_false]
      simp only [splitAtDelimiter, h, Bool.false_eq_true, if_false, ih]

theorem parseCore_tail (root : Command) (main tail : List String) :
    parseCore root main tail = appendTailArgs (parseCore root main []) tail := by
  unfold parseCore
  cases traverseLoop root [root] main with
  | help c => rfl
  | unknown c tok => rfl
  | done current chain =>
    simp only
    cases parseToEnd (buildCombined chain) main with
    | error e => rfl
    | ok pr => simp [appendTailArgs]

theorem traverseLoop_help_before (pre : List String) :
    ∀ (cur : Command) (chain : List Command) (h : String) (t : List String),
    (∀ a ∈ pre, hasPrefixStr a ("-") = true ∧ helpTokens.contains a = false) →
    helpTokens.contains h = true →
    traverseLoop cur chain (pre ++ h :: t) = .help cur := by
  induction pre with
  | nil =>
    intro cur chain h t _ hh
    rw [List.nil_append]
    unfold traverseLoop
    rw [if_pos hh]
  | cons a pre ih =>
    intro cur chain h t hpre hh
    have ha := hpre a (List.mem_cons_self a pre)
    rw [List.cons_append]
    rw [show traverseLoop cur chain (a :: (pre ++ h :: t)) = traverseLoop cur chain (pre ++ h :: t) from by
      simp only [traverseLoop, ha.1, ha.2, Bool.false_eq_true, if_false, if_true]]
    exact ih cur chain h t (fun x hx => hpre x (List.mem_cons_of_mem a hx)) hh

theorem splitAtDelimiter_cons_ne (a : String) (rest : List String) (ha : a ≠ "--") :
    splitAtDelimiter (a :: rest) =
      (a :: (splitAtDelimiter rest).1, (splitAtDelimiter rest).2) := by
  have hc : ¬ ((a == "--") = true) := by simpa using ha
  simp only [splitAtDelimiter]
  rw [if_neg hc]

theorem splitAtDelimiter_append_of_clean (pre : List String) :
    ∀ (h : String) (t : List String), (∀ a ∈ pre, a ≠ "--") → h ≠ "--" →
    splitAtDelimiter (pre ++ h :: t) =
      (pre ++ h :: (splitAtDelimiter t).1, (splitAtDelimiter t).2) := by
  induction pre with
  | nil =>
    intro h t _ hh
    rw [List.nil_append, splitAtDelimiter_cons_ne h t hh, List.nil_append]
  | cons a pre ih =>
    intro h t hpre hh
    have ha : a ≠ "--" := hpre a (List.mem_cons_self a pre)
    rw [List.cons_append, splitAtDelimiter_cons_ne a _ ha,
      ih h t (fun x hx => hpre x (List.mem_cons_of_mem a hx)) hh]
    rfl

/-! Helper lemmas about the required-flag scan. -/

/-- A metadata entry counts as missing when its flag is found in the
merged set with a rendered value equal to its rendered default. -/
def missingAt (combined : List FlagDef) (m : FlagMetadata) : Bool :=
  match lookupFlag combined m.name with
  | some f => f.value.render == f.defVal.render
  | none => false

theorem collectRequired_ok (pathName : String) (combined : List FlagDef) :
    ∀ (metas : List FlagMetadata),
    (∀ m ∈ metas, m.required = true → (lookupFlag combined m.name).isSome = true) →
    collectRequired pathName combined metas =
      .ok (((metas.filter (fun m => m.required && missingAt combined m)).map
        (fun m => formatFlagName m.name))) := by
  intro metas
  induction metas with
  | nil => intro _; rfl
  | cons m rest ih =>
    intro hall
    have hrest := fun x hx => hall x (List.mem_cons_of_mem m hx)
    by_cases hreq : m.required = true
    · have hsome := hall m (List.mem_cons_self m rest) hreq
      rcases Option.isSome_iff_exists.mp hsome with ⟨f, hf⟩
      simp only [collectRequired, hreq, if_false, Bool.not_eq_true, hf, ih hrest]
      by_cases hmiss : f.value.render == f.defVal.render
      · simp [List.filter, hreq, missingAt, hf, hmiss]
      · simp [List.filter, hreq, missingAt, hf, hmiss]
    · have hreq2 : m.required = false := by
        cases hb : m.required
        · rfl
        · exact absurd hb hreq
      simp only [collectRequired, hreq2, if_true, ih hrest]
      simp [List.filter, hreq2]

theorem collectRequired_internal (pathName : String) (combined : List FlagDef) :
    ∀ (metas : List FlagMetadata) (m : FlagMetadata), m ∈ metas → m.required = true →
    lookupFlag combined m.name = none →
    ∃ e, collectRequired pathName combined metas = .error e := by
  intro metas
  induction metas with
  | nil => intro m hm; exact absurd hm (List.not_mem_nil m)
  | cons m0 rest ih =>
    intro m hm hreq hnone
    rcases List.mem_cons.mp hm with heq | hmem
    · subst heq
      simp only [collectRequired, hreq, if_false, Bool.not_eq_true, hnone]
      exact ⟨_, rfl⟩
    · by_cases hreq0 : m0.required = true
      · cases hl : lookupFlag combined m0.name with
        | none =>
          simp only [collectRequired, hreq0, if_false, Bool.not_eq_true, hl]
          exact ⟨_, rfl⟩
        | some f =>
          rcases ih m hmem hreq hnone with ⟨e, he⟩
          simp only [collectRequired, hreq0, if_false, Bool.not_eq_true, hl, he]
          exact ⟨e, rfl⟩
      · have hreq2 : m0.required = false := by
          cases hb : m0.required
          · rfl
          · exact absurd hb hreq0
        rcases ih m hmem hreq hnone with ⟨e, he⟩
        simp only [collectRequired, hreq2, if_true]
        exact ⟨e, he⟩

/-! Concrete command trees used by the claims (mirroring the trees of
spec section 8 and of src/parse_test.go). -/

/-- Subcommand `add` with the boolean flag `dry-run` (default false). -/
def c1add : Command := .mk ("add") [⟨("dry-run"), .b false, .b false⟩] [] [] true

/-- Root command owning the single subcommand `add`. -/
def c1root : Command := .mk ("root") [] [] [c1add] true

/-- Subcommand `add` without flags, under a root named `todo`. -/
def c10add : Command := .mk ("add") [] [] [] true

def c10root : Command := .mk ("todo") [] [] [c10add] true

/-- Subcommand `version` under a root, for the suggestion claims. -/
def vcmd : Command := .mk ("version") [] [] [] true

def vroot : Command := .mk ("root") [] [] [vcmd] true

/-- A childless, flagless command for the help-token claims. -/
def demoLeaf : Command := .mk ("demo") [] [] [] true

/-- The `todo nested hello` chain of src/parse_test.go with two required
flags on the terminal command. -/
def helloCmd : Command := .mk ("hello")
  [⟨("mandatory-flag"), .b false, .b false⟩, ⟨("another-mandatory-flag"), .s "", .s ""⟩]
  [⟨("mandatory-flag"), true⟩, ⟨("another-mandatory-flag"), true⟩] [] true

def nestedCmd : Command := .mk ("nested") [] [] [helloCmd] true

def todoRoot : Command := .mk ("todo") [] [] [nestedCmd] true

/-- A command whose metadata marks a flag required that its flag set
never declares: the authoring bug of claim C4. -/
def badCmd : Command := .mk ("bad") [] [⟨("ghost"), true⟩] [] true

/-! The claims. -/

/-- C3: for every args vector, `Parse` splits at the first standalone
`--` token: only the tokens before it are interpreted (the behaviour of
`Parse` on the full vector agrees with its behaviour on the prefix), and
every token after it is appended verbatim, in order, to the leftover
arguments of a successful resolution, while failures are unaffected by
the tail. -/
theorem C3_delimiter_split (root : Command) (args : List String) :
    Parse root args =
      appendTailArgs (Parse root (splitAtDelimiter args).1) (splitAtDelimiter args).2 := by
  cases hv : validateCommands root [] with
  | some e => simp only [Parse, hv, appendTailArgs]
  | none =>
    simp only [Parse, hv, splitAtDelimiter_fst_clean args]
    exact parseCore_tail root (splitAtDelimiter args).1 (splitAtDelimiter args).2

/-- C9: `GetFlag` walks the resolved command path from the terminal to
the root and the first node whose flag set declares the name decides the
outcome: the stored value when its dynamic type matches the requested
one, otherwise a panic naming the flag, the command path, the registered
type and the requested type; when no node of the path declares the name,
a panic naming the flag and the command path. -/
theorem C9_GetFlag_walks_path (path : List Command) (name : String) (requested : FlagTy) :
    GetFlag path name requested =
      match path.reverse.findSome? (fun c => lookupFlag c.flags name) with
      | some f =>
        if f.value.ty = requested then .value f.value
        else .panicked (typeMismatchMsg name path f.value.ty requested)
      | none => .panicked (flagNotFoundMsg name path) := by
  unfold GetFlag
  generalize path.reverse = l
  induction l with
  | nil => rfl
  | cons c rest ih =>
    cases h : lookupFlag c.flags name with
    | some f => simp [getFlagAux, List.findSome?_cons, h]
    | none =>
      simp only [getFlagAux, List.findSome?_cons, h]
      exact ih

theorem Parse_ok_inversion (root : Command) (args : List String) (chain : List Command)
    (fs : List FlagDef) (left : List String) (h : Parse root args = .ok chain fs left) :
    ∃ pos : List String,
      parseToEnd (buildCombined chain) (splitAtDelimiter args).1 = .ok (fs, pos)
      ∧ left = stripChainNames chain pos ++ (splitAtDelimiter args).2 := by
  cases hv : validateCommands root [] with
  | some e =>
    simp only [Parse, hv] at h
    exact absurd h (by simp)
  | none =>
    simp only [Parse, hv] at h
    unfold parseCore at h
    cases ht : traverseLoop root [root] (splitAtDelimiter args).1 with
    | help c => rw [ht] at h; exact absurd h (by simp)
    | unknown c tok => rw [ht] at h; exact absurd h (by simp)
    | done current chain2 =>
      rw [ht] at h
      simp only at h
      cases hp : parseToEnd (buildCombined chain2) (splitAtDelimiter args).1 with
      | error e => rw [hp] at h; exact absurd h (by simp)
      | ok pr =>
        rw [hp] at h
        simp only [ParseResult.ok.injEq] at h
        obtain ⟨h1, h2, h3⟩ := h
        subst h1
        refine ⟨pr.2, ?_, h3.symm⟩
        rw [← h2]
        simpa using hp

/-- C1 (amended): on the concrete tree of the claim — a root with child
`add` owning boolean flag `dry-run` — the input
`["add", "item1", "--dry-run", "item2"]` resolves the terminal `add`,
sets `dry-run` to true and leaves exactly `["item1", "item2"]`; and in
general the leftover arguments of every successful resolution are the
positional tokens left by the flag-parsing pass — a subsequence of the
main tokens, in original order — with a leading run of tokens byte-equal
to a chain command name removed, and with every token after the `--`
delimiter appended last, so the leftover list is a subsequence of
`mainTokens ++ tailTokens`.  (The claim's stronger reading — leftover
equals exactly the non-consumed tokens — fails: the strip also removes
leading positional duplicates of command names; see the
counterexample.) -/
theorem C1_leftover_reconstruction :
    (Parse c1root ["add", "item1", "--dry-run", "item2"]
      = .ok [c1root, c1add] [⟨("dry-run"), .b true, .b false⟩] ["item1", "item2"])
    ∧ (∀ (root : Command) (args : List String) (chain : List Command)
        (fs : List FlagDef) (left : List String),
        Parse root args = .ok chain fs left →
        ∃ mainLeft : List String,
          left = mainLeft ++ (splitAtDelimiter args).2
          ∧ mainLeft.Sublist (splitAtDelimiter args).1
          ∧ left.Sublist ((splitAtDelimiter args).1 ++ (splitAtDelimiter args).2)) := by
  constructor
  · rfl
  · intro root args chain fs left h
    rcases Parse_ok_inversion root args chain fs left h with ⟨pos, hp, hleft⟩
    have hsub : pos.Sublist (splitAtDelimiter args).1 :=
      parseToEnd_sublist (buildCombined chain) fs (splitAtDelimiter args).1 pos hp
    have hstrip : (stripChainNames chain pos).Sublist pos := by
      unfold stripChainNames
      exact List.dropWhile_sublist _
    refine ⟨stripChainNames chain pos, hleft, hstrip.trans hsub, ?_⟩
    rw [hleft]
    exact List.Sublist.append (hstrip.trans hsub) (List.Sublist.refl _)

/-- C1 counterexample: with the same tree, input
`["add", "add", "item1"]` consumes only the first `add` as a command
name, so the tokens not consumed as command names or flag tokens are
`["add", "item1"]`; yet `Parse` leaves only `["item1"]`, because the
leading strip removes every leading token byte-equal to a chain command
name, consumed or not. -/
theorem C1_counterexample :
    (Parse c1root ["add", "add", "item1"]).leftoverArgs = some ["item1"]
    ∧ some (["item1"] : List String) ≠ some ["add", "item1"] :=
  ⟨rfl, by decide⟩

theorem C1_leftover_reconstruction_witness :
    ∃ mainLeft : List String,
      (["item1", "item2"] : List String)
        = mainLeft ++ (splitAtDelimiter ["add", "item1", "--dry-run", "item2"]).2
      ∧ mainLeft.Sublist (splitAtDelimiter ["add", "item1", "--dry-run", "item2"]).1
      ∧ (["item1", "item2"] : List String).Sublist
          ((splitAtDelimiter ["add", "item1", "--dry-run", "item2"]).1
            ++ (splitAtDelimiter ["add", "item1", "--dry-run", "item2"]).2) :=
  C1_leftover_reconstruction.2 c1root ["add", "item1", "--dry-run", "item2"]
    [c1root, c1add] [⟨("dry-run"), .b true, .b false⟩] ["item1", "item2"] rfl

/-- C2: the merged flag set a resolution builds for a chain contains a
name exactly when some node of the chain declares it (sibling subtrees
never contribute), and looking a name up in the merged set yields the
first definition found when scanning the chain from the terminal
backwards — the most specific definition shadows an ancestor's; the flag
set a successful `Parse` returns carries exactly the names of the merged
set of its chain. -/
theorem C2_merged_flag_set :
    (∀ (chain : List Command) (name : String),
      ((∃ f ∈ buildCombined chain, f.name = name)
        ↔ (∃ cmd ∈ chain, ∃ f ∈ cmd.flags, f.name = name))
      ∧ lookupFlag (buildCombined chain) name
        = lookupFlag (chain.reverse.flatMap Command.flags) name)
    ∧ (∀ (root : Command) (args : List String) (chain : List Command)
        (fs : List FlagDef) (left : List String),
        Parse root args = .ok chain fs left →
        fs.map FlagDef.name = (buildCombined chain).map FlagDef.name) := by
  constructor
  · intro chain name
    refine ⟨?_, lookupFlag_buildCombined chain name⟩
    rw [← lookupFlag_isSome, lookupFlag_buildCombined, lookupFlag_isSome]
    constructor
    · rintro ⟨f, hf, hname⟩
      rcases List.mem_flatMap.mp hf with ⟨cmd, hcmd, hfc⟩
      exact ⟨cmd, List.mem_reverse.mp hcmd, f, hfc, hname⟩
    · rintro ⟨cmd, hcmd, f, hfc, hname⟩
      exact ⟨f, List.mem_flatMap.mpr ⟨cmd, List.mem_reverse.mpr hcmd, hfc⟩, hname⟩
  · intro root args chain fs left h
    rcases Parse_ok_inversion root args chain fs left h with ⟨pos, hp, _⟩
    exact parseToEnd_names (buildCombined chain) fs (splitAtDelimiter args).1 pos hp

theorem C2_merged_flag_set_witness :
    ((∃ f ∈ buildCombined [c1root, c1add], f.name = "dry-run")
      ↔ (∃ cmd ∈ [c1root, c1add], ∃ f ∈ cmd.flags, f.name = "dry-run"))
    ∧ ([⟨("dry-run"), FlagValue.b true, FlagValue.b false⟩] : List FlagDef).map FlagDef.name
      = (buildCombined [c1root, c1add]).map FlagDef.name :=
  ⟨(C2_merged_flag_set.1 [c1root, c1add] ("dry-run")).1,
   C2_merged_flag_set.2 c1root ["add", "item1", "--dry-run", "item2"]
     [c1root, c1add] [⟨("dry-run"), .b true, .b false⟩] ["item1", "item2"] rfl⟩

/-- C10: subcommand matching is case-insensitive while the post-parse
strip compares byte-for-byte: any token `t` that selects the child `add`
of the `todo` root case-insensitively without being byte-equal to a
chain command name still resolves the subcommand, is not stripped, and
heads the leftover arguments. -/
theorem C10_case_fold_match_strict_strip :
    ∀ (t : String), eqFold ("add") t = true → t ≠ "add" → t ≠ "todo" →
      hasPrefixStr t ("-") = false → t ≠ "--" →
      Parse c10root [t, "x"] = .ok [c10root, c10add] [] [t, "x"] := by
  intro t hfold hne hnetodo hdash hnedelim
  have hcon : helpTokens.contains t = false := by
    cases hb : helpTokens.contains t
    · rfl
    · exfalso
      have hmem : t ∈ helpTokens := by
        simpa [helpTokens] using hb
      simp only [helpTokens, List.mem_cons, List.not_mem_nil, or_false] at hmem
      rcases hmem with rfl | rfl | rfl | rfl <;> exact absurd hdash (by decide)
  have hval : validateCommands c10root [] = none := rfl
  have hsplit : splitAtDelimiter [t, "x"] = ([t, "x"], []) := by
    rw [splitAtDelimiter_cons_ne t ["x"] hnedelim]
    rfl
  have hfind : c10root.findSubCommand t = some c10add := by
    simp only [Command.findSubCommand, c10root, c10add, Command.subCommands, Command.name,
      List.find?, hfold]
  have htrav : traverseLoop c10root [c10root] [t, "x"] = .done c10add [c10root, c10add] := by
    unfold traverseLoop
    rw [if_neg (show ¬ (helpTokens.contains t = true) from by rw [hcon]; simp)]
    rw [if_neg (show ¬ (hasPrefixStr t ("-") = true) from by rw [hdash]; simp)]
    rw [hfind]
    rfl
  have hparse : parseToEnd (buildCombined [c10root, c10add]) [t, "x"] = .ok ([], [t, "x"]) := by
    show parseToEnd [] [t, "x"] = .ok ([], [t, "x"])
    unfold parseToEnd
    rw [if_neg (show ¬ (isFlagToken t = true) from by
      simp only [isFlagToken, hdash, Bool.false_and]
      simp)]
    rw [show parseToEnd [] ["x"] = .ok ([], ["x"]) from rfl]
  have hstrip : stripChainNames [c10root, c10add] [t, "x"] = [t, "x"] := by
    unfold stripChainNames
    have hpred : ([c10root, c10add].any (fun cmd => cmd.name == t)) = false := by
      simp only [List.any_cons, List.any_nil, Bool.or_false, c10root, c10add, Command.name]
      rw [beq_eq_false_iff_ne.mpr (Ne.symm hnetodo), beq_eq_false_iff_ne.mpr (Ne.symm hne)]
      rfl
    rw [List.dropWhile_cons, hpred]
    simp
  simp only [Parse, hval, hsplit]
  unfold parseCore
  rw [htrav]
  simp only
  rw [hparse]
  simp only
  rw [hstrip, List.append_nil]

theorem C10_case_fold_match_strict_strip_witness :
    Parse c10root ["ADD", "x"] = .ok [c10root, c10add] [] ["ADD", "x"] :=
  C10_case_fold_match_strict_strip ("ADD") rfl (by decide) (by decide) rfl (by decide)

/-- C4: after flag parsing, the required-flag scan of the resolved chain
treats a required flag whose rendered value still equals its rendered
default as not supplied; when every required name is present in the
merged set, the scan collects all missing names into one list — the
resolver emits a single aggregated error listing them all, as on the
`todo nested hello` example below — and when a required name is absent
from the merged set altogether, the scan aborts with an internal error
instead of the user-facing one, as on the `bad` example below. -/
theorem C4_required_flag_check :
    (∀ (pathName : String) (combined : List FlagDef) (metas : List FlagMetadata),
      (∀ m ∈ metas, m.required = true → (lookupFlag combined m.name).isSome = true) →
      collectRequired pathName combined metas =
        .ok ((metas.filter (fun m => m.required && missingAt combined m)).map
          (fun m => formatFlagName m.name)))
    ∧ (∀ (pathName : String) (combined : List FlagDef) (metas : List FlagMetadata)
        (m : FlagMetadata), m ∈ metas → m.required = true →
        lookupFlag combined m.name = none →
        ∃ e, collectRequired pathName combined metas = .error e)
    ∧ ParseV2 todoRoot ["nested", "hello"]
      = .missingFlags ("todo nested hello") ["-mandatory-flag", "-another-mandatory-flag"]
          ("command \"todo nested hello\": required flags \"-mandatory-flag, -another-mandatory-flag\" not set")
    ∧ ParseV2 badCmd []
      = .internalError ("command \"bad\": internal error: required flag -ghost not found in flag set") :=
  ⟨fun pathName combined metas h => collectRequired_ok pathName combined metas h,
   fun pathName combined metas m h1 h2 h3 =>
     collectRequired_internal pathName combined metas m h1 h2 h3,
   rfl, rfl⟩

theorem C4_required_flag_check_witness :
    collectRequired ("todo") [⟨("f"), .b false, .b false⟩] [⟨("f"), true⟩]
      = .ok (([(⟨("f"), true⟩ : FlagMetadata)].filter
          (fun m => m.required && missingAt [⟨("f"), .b false, .b false⟩] m)).map
            (fun m => formatFlagName m.name))
    ∧ ∃ e, collectRequired ("p") [] [⟨("g"), true⟩] = .error e :=
  ⟨C4_required_flag_check.1 ("todo") [⟨("f"), .b false, .b false⟩] [⟨("f"), true⟩] (by decide),
   C4_required_flag_check.2.1 ("p") [] [⟨("g"), true⟩] ⟨("g"), true⟩
     (List.mem_singleton.mpr rfl) rfl rfl⟩

/-- C5 (amended): the recognized help spellings are exactly the
standalone tokens `-h`, `--h`, `-help`, `--help` (an `=`-joined or
truncated form is not one), and a help spelling short-circuits
resolution with the help signal for the command resolved so far exactly
when command-path discovery reaches it — in particular whenever every
earlier main token is option-shaped and not a help spelling.  (The
claim's stronger reading — any help token anywhere before `--`
short-circuits — fails when discovery stops first with an
unknown-command error; see the counterexample.) -/
theorem C5_help_spellings :
    (∀ (root : Command) (pre : List String) (h : String) (t : List String),
      validateCommands root [] = none →
      (∀ a ∈ pre, hasPrefixStr a ("-") = true ∧ a ≠ "--" ∧ helpTokens.contains a = false) →
      helpTokens.contains h = true →
      Parse root (pre ++ h :: t) = .helpRequested root)
    ∧ (Parse demoLeaf ["--help=true"]).isHelp = false
    ∧ (Parse demoLeaf ["-H"]).isHelp = false
    ∧ (Parse demoLeaf ["--he"]).isHelp = false := by
  refine ⟨?_, rfl, rfl, rfl⟩
  intro root pre h t hval hpre hh
  have hmem : h ∈ helpTokens := by simpa [helpTokens] using hh
  have hhne : h ≠ "--" := by
    simp only [helpTokens, List.mem_cons, List.not_mem_nil, or_false] at hmem
    rcases hmem with rfl | rfl | rfl | rfl <;> decide
  simp only [Parse, hval,
    splitAtDelimiter_append_of_clean pre h t (fun a ha => (hpre a ha).2.1) hhne]
  unfold parseCore
  rw [traverseLoop_help_before pre root [root] h (splitAtDelimiter t).1
    (fun a ha => ⟨(hpre a ha).1, (hpre a ha).2.2⟩) hh]

/-- C5 counterexample: with a root owning child `version`, the input
`["bogus", "--help"]` carries the help token `--help` before any `--`
delimiter, yet resolution fails with the unknown-command error for
`bogus` instead of returning the help signal: discovery errors out
before the help token is reached. -/
theorem C5_counterexample :
    helpTokens.contains ("--help") = true
    ∧ (Parse vroot ["bogus", "--help"]).isHelp = false
    ∧ (Parse vroot ["bogus", "--help"]).unknownInfo.isSome = true := by
  refine ⟨rfl, ?_, ?_⟩ <;>
    rw [show Parse vroot ["bogus", "--help"]
      = .unknownCommand vroot ("bogus") (vroot.getSuggestions ("bogus")) from rfl] <;>
    rfl

theorem C5_help_spellings_witness :
    Parse demoLeaf (["-v"] ++ "--help" :: ["x"]) = .helpRequested demoLeaf :=
  C5_help_spellings.1 demoLeaf ["-v"] ("--help") ["x"] rfl (by decide) rfl

theorem getSuggestions_verzion : vroot.getSuggestions ("verzion") = ["version"] := by
  have hsim : calculateSimilarity ("verzion") ("version") = 1 - mkRat 1 7 := rfl
  have hdec : decide (threshold < calculateSimilarity ("verzion") ("version")) = true := by
    rw [hsim]
    exact decide_eq_true (by
      simp only [threshold, Rat.mkRat_eq_div]
      norm_num)
  unfold Command.getSuggestions
  simp only [vroot, vcmd, Command.subCommands, Command.name, List.map_cons, List.map_nil]
  simp only [List.filter, hdec]
  rfl

/-- C6: the suggestion list attached to every unknown-command error
holds at most 3 entries, each drawn from the current node's subcommand
names with similarity score strictly above the 0.5 threshold (so nothing
qualifying leaves the list empty); and on the claim's example the
unknown token `verzion` against children `["version"]` produces the
unknown-command error whose suggestion list is exactly `["version"]`. -/
theorem C6_unknown_command_error :
    (∀ (c : Command) (tok : String), (c.getSuggestions tok).length ≤ 3)
    ∧ (∀ (c : Command) (tok : String) (s : String), s ∈ c.getSuggestions tok →
        s ∈ c.subCommands.map Command.name ∧ threshold < calculateSimilarity tok s)
    ∧ Parse vroot ["verzion"] = .unknownCommand vroot ("verzion") ["version"] := by
  refine ⟨?_, ?_, ?_⟩
  · intro c tok
    unfold Command.getSuggestions
    rw [List.length_map, List.length_take]
    exact min_le_left _ _
  · intro c tok s hs
    simp only [Command.getSuggestions] at hs
    rcases List.mem_map.mp hs with ⟨sc, hsc, hname⟩
    have hsc2 := List.mem_of_mem_take hsc
    have hsc3 := (mem_sortBy leScore _ sc).mp hsc2
    rcases List.mem_filter.mp hsc3 with ⟨hscmem, hpred⟩
    rcases List.mem_map.mp hscmem with ⟨n2, hn2, hmk⟩
    rw [← hmk] at hname hpred
    simp only at hname hpred
    constructor
    · rw [← hname]
      exact hn2
    · rw [← hname]
      exact of_decide_eq_true hpred
  · rw [show Parse vroot ["verzion"]
      = .unknownCommand vroot ("verzion") (vroot.getSuggestions ("verzion")) from rfl,
      getSuggestions_verzion]

theorem C6_unknown_command_error_witness :
    ("version" ∈ vroot.subCommands.map Command.name
      ∧ threshold < calculateSimilarity ("verzion") ("version"))
    ∧ (vroot.getSuggestions ("verzion")).length ≤ 3 :=
  ⟨C6_unknown_command_error.2.1 vroot ("verzion") ("version")
     (by rw [getSuggestions_verzion]; exact List.mem_singleton.mpr rfl),
   C6_unknown_command_error.1 vroot ("verzion")⟩

/-- C7 (amended): the similarity score is 1.0 when the two strings are
case-insensitively identical; it is 0.9 when the lowercased first string
is a strict prefix of the lowercased second (the code checks only this
direction, not the symmetric one — see the counterexample); otherwise it
is `1 - d/max(len a, len b)` on the lowercased strings, where `d` is the
matrix-computed distance, and that distance is the classic unit-cost
Levenshtein distance: it satisfies the two base equations and the
unit-cost deletion/insertion/substitution recurrence, which determine
the function uniquely. -/
theorem C7_similarity_score :
    (∀ a b : String, lowerStr a = lowerStr b → calculateSimilarity a b = 1)
    ∧ (∀ a b : String, lowerStr a ≠ lowerStr b →
        hasPrefixStr (lowerStr b) (lowerStr a) = true →
        calculateSimilarity a b = mkRat 9 10)
    ∧ (∀ a b : String, lowerStr a ≠ lowerStr b →
        hasPrefixStr (lowerStr b) (lowerStr a) = false →
        calculateSimilarity a b
          = 1 - mkRat (levenshteinDistance (lowerStr a) (lowerStr b))
              (max (lowerStr a).data.length (lowerStr b).data.length))
    ∧ (∀ a b : String, levenshteinDistance a b = levList a.data b.data)
    ∧ (∀ ys : List Char, levList [] ys = ys.length)
    ∧ (∀ xs : List Char, levList xs [] = xs.length)
    ∧ (∀ (xs ys : List Char) (x y : Char),
        levList (xs ++ [x]) (ys ++ [y])
          = min (levList xs (ys ++ [y]) + 1)
              (min (levList (xs ++ [x]) ys + 1)
                (levList xs ys + (if x = y then 0 else 1)))) := by
  refine ⟨?_, ?_, ?_, levenshteinDistance_eq_levList, levList_nil_left, levList_nil_right,
    levList_snoc⟩
  · intro a b h
    unfold calculateSimilarity
    rw [if_pos h]
  · intro a b h hp
    unfold calculateSimilarity
    rw [if_neg h, if_pos hp]
  · intro a b h hp
    unfold calculateSimilarity
    rw [if_neg h, if_neg (by rw [hp]; simp)]

/-- C7 counterexample: `"a"` is a case-insensitive prefix of `"ab"`, so
the claim's either-direction rule demands a score of 0.9 for the pair
`("ab", "a")`; the code checks only whether the first string is a prefix
of the second, falls through to the distance formula, and scores
`1 - 1/2 = 0.5`. -/
theorem C7_counterexample :
    hasPrefixStr ("ab") ("a") = true
    ∧ calculateSimilarity ("ab") ("a") = 1 - mkRat 1 2
    ∧ 1 - mkRat 1 2 ≠ mkRat 9 10 := by
  refine ⟨rfl, rfl, ?_⟩
  simp only [Rat.mkRat_eq_div]
  norm_num

theorem C7_similarity_score_witness :
    calculateSimilarity ("A") ("a") = 1
    ∧ calculateSimilarity ("ve") ("version") = mkRat 9 10
    ∧ calculateSimilarity ("ab") ("ba")
      = 1 - mkRat (levenshteinDistance (lowerStr ("ab")) (lowerStr ("ba")))
          (max (lowerStr ("ab")).data.length (lowerStr ("ba")).data.length) :=
  ⟨C7_similarity_score.1 ("A") ("a") rfl,
   C7_similarity_score.2.1 ("ve") ("version") (by decide) rfl,
   C7_similarity_score.2.2.1 ("ab") ("ba") (by decide) rfl⟩

theorem FindSimilar_eval (target : String) (cands : List String) (lim : Int)
    (hguard : ¬ (target = "" ∨ lim ≤ 0)) :
    FindSimilar target cands lim =
      ((sortBy leScored ((cands.map
          (fun n => ({ name := n, score := calculateSimilarity target n } : Scored))).filter
        (fun s => decide (threshold < s.score)))).take lim.toNat).map Scored.name := by
  unfold FindSimilar
  rw [if_neg hguard]

/-- C8 (amended): `FindSimilar` discards every candidate scoring at or
below the 0.5 threshold, orders the kept candidates by descending score
with ties broken by ascending byte-lexicographic name order, truncates
to the limit, and returns an empty result for an empty target or a
non-positive limit; two empty strings score a perfect 1.0, and a
non-empty target against an empty candidate scores 0.0.  (The claim's
symmetric reading — an empty string against a non-empty one scores
0.0 — fails for an empty first argument, which the prefix rule scores
0.9; see the counterexample.  FindSimilar itself never evaluates that
case, returning `[]` for an empty target.) -/
theorem C8_FindSimilar_behaviour :
    (∀ (cands : List String) (lim : Int), FindSimilar ("") cands lim = [])
    ∧ (∀ (target : String) (cands : List String) (lim : Int), lim ≤ 0 →
        FindSimilar target cands lim = [])
    ∧ (∀ (target : String) (cands : List String) (lim : Int),
        (FindSimilar target cands lim).Pairwise (fun n1 n2 =>
          calculateSimilarity target n2 < calculateSimilarity target n1
          ∨ (calculateSimilarity target n1 = calculateSimilarity target n2
            ∧ lexLe n1.data n2.data = true)))
    ∧ (∀ (target : String) (cands : List String) (lim : Int) (n : String),
        n ∈ FindSimilar target cands lim →
        n ∈ cands ∧ threshold < calculateSimilarity target n)
    ∧ (∀ (target : String) (cands : List String) (lim : Int),
        (FindSimilar target cands lim).length ≤ lim.toNat)
    ∧ calculateSimilarity ("") ("") = 1
    ∧ calculateSimilarity ("x") ("") = 0 := by
  refine ⟨?_, ?_, ?_, ?_, ?_, rfl, ?_⟩
  · intro cands lim
    unfold FindSimilar
    rw [if_pos (Or.inl rfl)]
  · intro target cands lim h
    unfold FindSimilar
    rw [if_pos (Or.inr h)]
  · intro target cands lim
    by_cases hguard : target = "" ∨ lim ≤ 0
    · unfold FindSimilar
      rw [if_pos hguard]
      exact List.Pairwise.nil
    · rw [FindSimilar_eval target cands lim hguard]
      have hsorted := pairwise_sortBy leScored_total leScored_trans
        ((cands.map (fun n => ({ name := n, score := calculateSimilarity target n } : Scored))).filter
          (fun s => decide (threshold < s.score)))
      have htake := hsorted.sublist (List.take_sublist lim.toNat _)
      have hinv : ∀ sc ∈ (sortBy leScored ((cands.map
          (fun n => ({ name := n, score := calculateSimilarity target n } : Scored))).filter
            (fun s => decide (threshold < s.score)))).take lim.toNat,
          sc.score = calculateSimilarity target sc.name := by
        intro sc hsc
        have hmem := (mem_sortBy leScored _ sc).mp (List.mem_of_mem_take hsc)
        rcases List.mem_filter.mp hmem with ⟨hm, _⟩
        rcases List.mem_map.mp hm with ⟨n2, _, hmk⟩
        rw [← hmk]
      rw [List.pairwise_map]
      refine htake.imp_of_mem ?_
      intro x y hx hy hle
      have hxs := hinv x hx
      have hys := hinv y hy
      unfold leScored at hle
      simp only [Bool.or_eq_true, Bool.and_eq_true, decide_eq_true_eq] at hle
      rcases hle with h1 | ⟨h1, h2⟩
      · left
        rw [← hxs, ← hys]
        exact h1
      · right
        exact ⟨by rw [← hxs, ← hys]; exact h1, h2⟩
  · intro target cands lim n hn
    by_cases hguard : target = "" ∨ lim ≤ 0
    · rw [show FindSimilar target cands lim = [] from by
        unfold FindSimilar; rw [if_pos hguard]] at hn
      exact absurd hn (List.not_mem_nil n)
    · rw [FindSimilar_eval target cands lim hguard] at hn
      rcases List.mem_map.mp hn with ⟨sc, hsc, hname⟩
      have hmem := (mem_sortBy leScored _ sc).mp (List.mem_of_mem_take hsc)
      rcases List.mem_filter.mp hmem with ⟨hm, hpred⟩
      rcases List.mem_map.mp hm with ⟨n2, hn2, hmk⟩
      rw [← hmk] at hname hpred
      simp only at hname hpred
      rw [← hname]
      exact ⟨hn2, of_decide_eq_true hpred⟩
  · intro target cands lim
    by_cases hguard : target = "" ∨ lim ≤ 0
    · rw [show FindSimilar target cands lim = [] from by
        unfold FindSimilar; rw [if_pos hguard]]
      exact Nat.zero_le _
    · rw [FindSimilar_eval target cands lim hguard, List.length_map, List.length_take]
      exact min_le_left _ _
  · rw [show calculateSimilarity ("x") ("") = 1 - mkRat 1 1 from rfl, Rat.mkRat_eq_div]
    norm_num

/-- C8 counterexample: the empty string against the non-empty string
`"x"` does not score 0.0 — the empty string is a prefix of every string,
so the prefix rule scores the pair 0.9. -/
theorem C8_counterexample :
    ("x" : String) ≠ ""
    ∧ calculateSimilarity ("") ("x") = mkRat 9 10
    ∧ mkRat 9 10 ≠ 0 :=
  ⟨by decide, rfl, by decide⟩

theorem C8_FindSimilar_behaviour_witness :
    FindSimilar ("hello") ["world"] 0 = []
    ∧ ("abc" ∈ ["abc"] ∧ threshold < calculateSimilarity ("ab") ("abc")) :=
  ⟨C8_FindSimilar_behaviour.2.1 ("hello") ["world"] 0 (by decide),
   C8_FindSimilar_behaviour.2.2.2.1 ("ab") ["abc"] 1 ("abc") (by decide)⟩
